import Mathlib

/-!
Verification development for the anti-duplicate-link chat bot
(`bot.py`): URL normalization, link extraction, the per-chat Redis-hash
link store, reaction aggregation, the retention sweeper and the
message-handling engine, shallowly embedded as pure Lean functions.

Modelling conventions:
* Redis hashes (`chat:{id}` keys) are association lists `List (String × Stored)`;
  `hset`/`hget`/`hdel` follow Redis field semantics (overwrite in place,
  first-match lookup, batched field removal).
* A stored field value is `Stored.ok r` when the JSON decodes to a link
  record and `Stored.malformed` when `json.loads`/timestamp parsing would
  raise; Python exceptions that propagate out of a handler are the
  `.error` case of `Except Unit`.
* Timestamps are integers (seconds); `timedelta(days=365)` is the constant
  `days365` in seconds.
* Python `str.lower` is modelled on the ASCII range (`lowerChar`), which is
  exact for the URLs the bot compares.
* String slicing, `split`, membership and regex matching are modelled over
  `List Char`, matching Python's per-character (codepoint) semantics.
-/

namespace AntiDup

/-- ASCII lower-casing of one character: model of Python `str.lower` on the
ASCII range (uppercase `A`–`Z` maps to `a`–`z`, everything else is fixed). -/
def lowerChar (c : Char) : Char :=
  if 65 ≤ c.toNat ∧ c.toNat ≤ 90 then Char.ofNat (c.toNat + 32) else c

/-- Model of Python `s.lower()` (ASCII range). -/
def pyLower (s : String) : String :=
  String.mk (s.toList.map lowerChar)

/-- Python `url.split('?')[0].split('#')[0]`: the text before the first `?`,
then before the first `#` of that. -/
def stripQueryFragment (cs : List Char) : List Char :=
  (cs.takeWhile (fun c => c ≠ '?')).takeWhile (fun c => c ≠ '#')

/-- Python `url[:-1] if url.endswith('/') else url`. -/
def dropTrailingSlash (cs : List Char) : List Char :=
  if cs.getLast? = some '/' then cs.dropLast else cs

/-- `bot.py` `normalize_url`: strip the query string from the first `?`,
strip the fragment from the first `#`, strip a single trailing `/`,
lower-case the result. -/
def normalize_url (url : String) : String :=
  String.mk ((dropTrailingSlash (stripQueryFragment url.toList)).map lowerChar)

theorem toList_mk (l : List Char) : (String.mk l).toList = l := rfl

theorem char_eq_of_toNat_eq {c d : Char} (h : c.toNat = d.toNat) : c = d :=
  Char.eq_of_val_eq (UInt32.ext h)

theorem toNat_ofNat_valid (n : Nat) (h : n.isValidChar) : (Char.ofNat n).toNat = n := by
  simp [Char.ofNat, h, Char.ofNatAux, Char.toNat, UInt32.toNat, BitVec.toNat_ofNatLt]

theorem lowerChar_toNat_of_upper {c : Char} (h : 65 ≤ c.toNat ∧ c.toNat ≤ 90) :
    (lowerChar c).toNat = c.toNat + 32 := by
  unfold lowerChar
  rw [if_pos h]
  exact toNat_ofNat_valid _ (Or.inl (by omega))

theorem lowerChar_of_not_upper {c : Char} (h : ¬ (65 ≤ c.toNat ∧ c.toNat ≤ 90)) :
    lowerChar c = c := by
  unfold lowerChar
  rw [if_neg h]

theorem lowerChar_idem (c : Char) : lowerChar (lowerChar c) = lowerChar c := by
  by_cases h : 65 ≤ c.toNat ∧ c.toNat ≤ 90
  · have ht : (lowerChar c).toNat = c.toNat + 32 := lowerChar_toNat_of_upper h
    exact lowerChar_of_not_upper (by omega)
  · rw [lowerChar_of_not_upper h, lowerChar_of_not_upper h]

/-- `lowerChar` fixes exactly the characters below `A` (in particular
`?` (63), `#` (35) and `/` (47)): for such a target `d`,
`lowerChar c = d` iff `c = d`. -/
theorem lowerChar_eq_low_iff {c d : Char} (hd : d.toNat < 65) :
    lowerChar c = d ↔ c = d := by
  by_cases h : 65 ≤ c.toNat ∧ c.toNat ≤ 90
  · have ht : (lowerChar c).toNat = c.toNat + 32 := lowerChar_toNat_of_upper h
    constructor
    · intro he
      exfalso
      rw [he] at ht
      omega
    · intro he
      exfalso
      rw [he] at h
      omega
  · rw [lowerChar_of_not_upper h]

theorem lowerChar_not_upper (c : Char) :
    ¬ (65 ≤ (lowerChar c).toNat ∧ (lowerChar c).toNat ≤ 90) := by
  by_cases h : 65 ≤ c.toNat ∧ c.toNat ≤ 90
  · have := lowerChar_toNat_of_upper h
    omega
  · rw [lowerChar_of_not_upper h]
    exact h

theorem mem_stripQueryFragment {cs : List Char} {c : Char}
    (h : c ∈ stripQueryFragment cs) : c ≠ '?' ∧ c ≠ '#' := by
  unfold stripQueryFragment at h
  have h2 := List.mem_takeWhile_imp h
  have h1 := List.mem_takeWhile_imp ((List.takeWhile_sublist _).subset h)
  simp at h1 h2
  exact ⟨h1, h2⟩

theorem stripQueryFragment_eq_self {cs : List Char}
    (h : ∀ c ∈ cs, c ≠ '?' ∧ c ≠ '#') : stripQueryFragment cs = cs := by
  unfold stripQueryFragment
  have h1 : cs.takeWhile (fun c => c ≠ '?') = cs :=
    List.takeWhile_eq_self_iff.mpr (fun x hx => by simp [(h x hx).1])
  rw [h1]
  exact List.takeWhile_eq_self_iff.mpr (fun x hx => by simp [(h x hx).2])

theorem dropTrailingSlash_sublist (cs : List Char) :
    (dropTrailingSlash cs).Sublist cs := by
  unfold dropTrailingSlash
  split
  · exact List.dropLast_sublist cs
  · exact List.Sublist.refl cs

theorem dropTrailingSlash_eq_self {cs : List Char}
    (h : cs.getLast? ≠ some '/') : dropTrailingSlash cs = cs := by
  unfold dropTrailingSlash
  rw [if_neg h]

theorem normalize_url_idem_of (u : String)
    (h : ¬ ((stripQueryFragment u.toList).getLast? = some '/' ∧
            (stripQueryFragment u.toList).dropLast.getLast? = some '/')) :
    normalize_url (normalize_url u) = normalize_url u := by
  unfold normalize_url
  rw [toList_mk]
  set s := stripQueryFragment u.toList with hs
  set l := dropTrailingSlash s with hl
  have hmem : ∀ c ∈ l, c ≠ '?' ∧ c ≠ '#' := by
    intro c hc
    exact mem_stripQueryFragment ((dropTrailingSlash_sublist s).subset hc)
  have hstrip : stripQueryFragment (l.map lowerChar) = l.map lowerChar := by
    apply stripQueryFragment_eq_self
    intro c hc
    rcases List.mem_map.mp hc with ⟨a, ha, rfl⟩
    constructor
    · intro hq
      exact (hmem a ha).1 ((lowerChar_eq_low_iff (by decide)).mp hq)
    · intro hq
      exact (hmem a ha).2 ((lowerChar_eq_low_iff (by decide)).mp hq)
  rw [hstrip]
  have hlast : (l.map lowerChar).getLast? ≠ some '/' := by
    intro hsl
    rw [List.getLast?_map] at hsl
    have hl' : l.getLast? = some '/' := by
      cases hgl : l.getLast? with
      | none => rw [hgl] at hsl; simp at hsl
      | some a =>
        rw [hgl] at hsl
        simp at hsl
        rw [(lowerChar_eq_low_iff (by decide)).mp hsl]
    by_cases hcase : s.getLast? = some '/'
    · have : l = s.dropLast := by
        rw [hl]
        unfold dropTrailingSlash
        rw [if_pos hcase]
      rw [this] at hl'
      exact h ⟨hcase, hl'⟩
    · have : l = s := by
        rw [hl]
        unfold dropTrailingSlash
        rw [if_neg hcase]
      rw [this] at hl'
      exact hcase hl'
  rw [dropTrailingSlash_eq_self hlast, List.map_map]
  congr 1
  exact List.map_congr_left (fun a _ => lowerChar_idem a)

/-- C3 counterexample: on `"https://a.com//"` the code strips only one of the
two trailing slashes, so a second application of `normalize_url` changes the
result again — `normalize_url` is not idempotent on every string. -/
theorem normalize_url_not_idempotent_cex :
    normalize_url (normalize_url "https://a.com//") ≠ normalize_url "https://a.com//" := by
  decide

/-- C3 (amended): `normalize_url` strips the query string from the first `?`
and the fragment from the first `#` (no `?` or `#` survives), strips a single
trailing `/`, and lower-cases the result (no ASCII uppercase survives); it is
idempotent on every URL whose query-and-fragment-stripped text does not end in
two slashes (a single application can leave a trailing slash exactly when the
stripped text ends in `//`, and on such inputs re-application strips again). -/
theorem normalize_url_spec :
    (∀ u : String, ∀ c ∈ (normalize_url u).toList,
        c ≠ '?' ∧ c ≠ '#' ∧ ¬ (65 ≤ c.toNat ∧ c.toNat ≤ 90)) ∧
    (∀ u : String,
      ¬ ((stripQueryFragment u.toList).getLast? = some '/' ∧
         (stripQueryFragment u.toList).dropLast.getLast? = some '/') →
      normalize_url (normalize_url u) = normalize_url u) := by
  constructor
  · intro u c hc
    unfold normalize_url at hc
    rw [toList_mk] at hc
    rcases List.mem_map.mp hc with ⟨a, ha, rfl⟩
    have hqf := mem_stripQueryFragment ((dropTrailingSlash_sublist _).subset ha)
    refine ⟨?_, ?_, lowerChar_not_upper a⟩
    · intro hq
      exact hqf.1 ((lowerChar_eq_low_iff (by decide)).mp hq)
    · intro hq
      exact hqf.2 ((lowerChar_eq_low_iff (by decide)).mp hq)
  · exact normalize_url_idem_of

/-- C3 witness: a concrete URL with query string satisfies the side condition
and is idempotently normalized. -/
theorem normalize_url_spec_witness :
    normalize_url (normalize_url "https://X.com/a?ref=1") = normalize_url "https://X.com/a?ref=1" :=
  normalize_url_spec.2 "https://X.com/a?ref=1" (by decide)

/-! ## Link extraction (`extract_links`) -/

/-- The kinds of Telegram message entities `extract_links` distinguishes. -/
inductive EntityType where
  | url
  | text_link
  | other
  deriving DecidableEq, Repr

/-- A Telegram message entity: a classified span of the message text.
`target` models `entity.url` and is meaningful for `text_link` entities. -/
structure Entity where
  etype : EntityType
  offset : Nat
  length : Nat
  target : String
  deriving DecidableEq, Repr

/-- The text-bearing part of a Telegram message, as `extract_links` reads it.
`none` models a missing (`None`) field; Telegram attaches `entities` only to
messages with `text` and `caption_entities` only to messages with `caption`. -/
structure MessageCore where
  text : Option String
  caption : Option String
  entities : List Entity
  caption_entities : List Entity
  message_id : Nat
  deriving DecidableEq, Repr

/-- Python `a or b or ""` on optional strings (`None` and `""` are falsy). -/
def strFallback (a b : Option String) : String :=
  let s := a.getD ""
  if s.isEmpty then b.getD "" else s

/-- Python slice `text[offset : offset + length]` (per character, clamping). -/
def pySlice (s : String) (off len : Nat) : String :=
  String.mk ((s.toList.drop off).take len)

/-- The entity pass of `extract_links`: URL entities slice the raw text,
`text_link` entities contribute their explicit target, in entity order. -/
def entityUrls (text : String) (es : List Entity) : List String :=
  es.foldl (fun acc e =>
    match e.etype with
    | .url => acc ++ [pySlice text e.offset e.length]
    | .text_link => acc ++ [e.target]
    | .other => acc) []

/-- Character class `[-\w.]` of the fallback pattern (`\w` on the ASCII range). -/
def isHostChar (c : Char) : Bool :=
  c = '-' || c.isAlpha || c.isDigit || c = '_' || c = '.'

/-- Character class `[\da-fA-F]` of the fallback pattern. -/
def isHexDigitChar (c : Char) : Bool :=
  c.isDigit || ('a' ≤ c && c ≤ 'f') || ('A' ≤ c && c ≤ 'F')

/-- Character class `[/\w\.\-?=%&#@!$+]` of the fallback pattern. -/
def isTailChar (c : Char) : Bool :=
  c = '/' || c.isAlpha || c.isDigit || c = '_' || c = '.' || c = '-' || c = '?' ||
  c = '=' || c = '%' || c = '&' || c = '#' || c = '@' || c = '!' || c = '$' || c = '+'

/-- Greedy match of the repeated host group `(?:[-\w.]|(?:%[\da-fA-F]{2}))+`
(zero or more repetitions here — the caller checks for at least one):
returns the consumed characters and the rest of the input. -/
def takeHost : List Char → List Char × List Char
  | [] => ([], [])
  | c :: cs =>
    if isHostChar c then
      let r := takeHost cs
      (c :: r.1, r.2)
    else if c = '%' then
      match cs with
      | d1 :: d2 :: cs2 =>
        if isHexDigitChar d1 && isHexDigitChar d2 then
          let r := takeHost cs2
          ('%' :: d1 :: d2 :: r.1, r.2)
        else ([], c :: cs)
      | _ => ([], c :: cs)
    else ([], c :: cs)

/-- Match the `https?://` prefix the way the regex engine does (try the
optional `s`, fall back without it): consumed prefix and rest. -/
def matchScheme : List Char → Option (List Char × List Char)
  | 'h' :: 't' :: 't' :: 'p' :: rest =>
    match rest with
    | 's' :: ':' :: '/' :: '/' :: r => some (['h','t','t','p','s',':','/','/'], r)
    | ':' :: '/' :: '/' :: r => some (['h','t','t','p',':','/','/'], r)
    | _ => none
  | _ => none

/-- One attempted match of the URL pattern anchored at the head of `cs`. -/
def matchUrlAt (cs : List Char) : Option (List Char × List Char) :=
  match matchScheme cs with
  | none => none
  | some (sch, r1) =>
    let hr := takeHost r1
    if hr.1.isEmpty then none
    else
      let tl := hr.2.takeWhile isTailChar
      some (sch ++ hr.1 ++ tl, hr.2.drop tl.length)

/-- `re.findall` of the URL pattern: scan left to right, emitting
non-overlapping matches. `fuel` bounds the scan; callers pass the text
length, which suffices because every step consumes at least one character. -/
def findallUrls : Nat → List Char → List String
  | 0, _ => []
  | _, [] => []
  | fuel + 1, c :: cs =>
    match matchUrlAt (c :: cs) with
    | some (m, rest) => String.mk m :: findallUrls fuel rest
    | none => findallUrls fuel cs

/-- The candidate URL list of `extract_links` before normalization:
entity-derived URLs when the entity pass found any, otherwise the regex
fallback over the raw text. -/
def rawCandidates (m : MessageCore) : List String :=
  let text := strFallback m.text m.caption
  let es := if m.entities.isEmpty then m.caption_entities else m.entities
  let urls := entityUrls text es
  if urls.isEmpty then findallUrls text.toList.length text.toList else urls

/-- `bot.py` `extract_links`: candidates from entities (or the regex
fallback when the entity pass found zero URLs), each normalized, keeping
only the first appearance of every normalized URL. -/
def extract_links (m : MessageCore) : List String :=
  (rawCandidates m).foldl (fun acc u =>
    let n := normalize_url u
    if acc.contains n then acc else acc ++ [n]) []

/-- Specification-style first-occurrence deduplication. -/
def dedupKeepFirst : List String → List String
  | [] => []
  | a :: l => a :: dedupKeepFirst (l.filter (fun b => b ≠ a))
termination_by l => l.length
decreasing_by
  simp only [List.length_cons]
  exact Nat.lt_succ_of_le (List.length_filter_le _ _)

theorem dedupKeepFirst_nil : dedupKeepFirst [] = [] := by
  rw [dedupKeepFirst.eq_def]

theorem dedupKeepFirst_cons (a : String) (l : List String) :
    dedupKeepFirst (a :: l) = a :: dedupKeepFirst (l.filter (fun b => b ≠ a)) := by
  rw [dedupKeepFirst.eq_def]

theorem foldDedup_eq (f : String → String) (l : List String) :
    ∀ acc : List String,
      l.foldl (fun acc u =>
        let n := f u
        if acc.contains n then acc else acc ++ [n]) acc
      = acc ++ dedupKeepFirst ((l.map f).filter (fun b => !acc.contains b)) := by
  induction l with
  | nil => intro acc; simp [dedupKeepFirst_nil]
  | cons u l ih =>
    intro acc
    simp only [List.foldl_cons, List.map_cons, List.filter_cons]
    by_cases hc : acc.contains (f u)
    · rw [if_pos hc, ih acc]
      have hf : (!acc.contains (f u)) = false := by rw [hc]; rfl
      rw [hf]
      simp
    · have hcf : acc.contains (f u) = false := by
        revert hc
        cases acc.contains (f u) <;> simp
      rw [if_neg hc, ih (acc ++ [f u])]
      have ht : (!acc.contains (f u)) = true := by rw [hcf]; rfl
      rw [ht]
      simp only [if_pos]
      rw [dedupKeepFirst_cons, List.filter_filter]
      have hpred : (l.map f).filter (fun b => !(acc ++ [f u]).contains b)
          = (l.map f).filter (fun b => decide (b ≠ f u) && !acc.contains b) := by
        apply List.filter_congr
        intro x _
        by_cases hx : x = f u
        · subst hx
          simp [hcf]
        · simp [hx]
      rw [hpred]
      simp

theorem extract_links_eq_dedup (m : MessageCore) :
    extract_links m = dedupKeepFirst ((rawCandidates m).map normalize_url) := by
  unfold extract_links
  rw [foldDedup_eq]
  simp

theorem dedupKeepFirst_subset : ∀ l : List String, ∀ a ∈ dedupKeepFirst l, a ∈ l := by
  intro l
  induction l using dedupKeepFirst.induct with
  | case1 => intro a ha; simp [dedupKeepFirst] at ha
  | case2 b l ih =>
    intro a ha
    rw [dedupKeepFirst] at ha
    rcases List.mem_cons.mp ha with h | h
    · exact h ▸ List.mem_cons_self _ _
    · exact List.mem_cons_of_mem _ (List.mem_of_mem_filter (ih a h))

theorem dedupKeepFirst_nodup : ∀ l : List String, (dedupKeepFirst l).Nodup := by
  intro l
  induction l using dedupKeepFirst.induct with
  | case1 => simp [dedupKeepFirst]
  | case2 b l ih =>
    rw [dedupKeepFirst]
    refine List.nodup_cons.mpr ⟨?_, ih⟩
    intro hmem
    have := dedupKeepFirst_subset _ _ hmem
    have := List.of_mem_filter this
    simp at this

/-- The entity-pass URL list of a message, before any fallback. -/
def annotationUrls (m : MessageCore) : List String :=
  entityUrls (strFallback m.text m.caption)
    (if m.entities.isEmpty then m.caption_entities else m.entities)

/-- C4: `extract_links` returns the message's URLs normalized and
deduplicated preserving first-appearance order (it equals first-occurrence
deduplication of the normalized candidate list, and is duplicate-free); the
entity annotations are the authoritative candidate list, and the plain-text
regex fallback runs exactly when the entity pass found zero URLs; a message
with no text and no caption (hence also no entity annotations, which Telegram
attaches only to text or captions) yields the empty sequence. -/
theorem extract_links_contract :
    (∀ m : MessageCore,
        extract_links m = dedupKeepFirst ((rawCandidates m).map normalize_url) ∧
        (extract_links m).Nodup) ∧
    (∀ m : MessageCore,
        (annotationUrls m ≠ [] → rawCandidates m = annotationUrls m) ∧
        (annotationUrls m = [] →
          rawCandidates m =
            findallUrls (strFallback m.text m.caption).toList.length
              (strFallback m.text m.caption).toList)) ∧
    (∀ m : MessageCore, m.text = none → m.caption = none →
        m.entities = [] → m.caption_entities = [] → extract_links m = []) := by
  refine ⟨?_, ?_, ?_⟩
  · intro m
    refine ⟨extract_links_eq_dedup m, ?_⟩
    rw [extract_links_eq_dedup m]
    exact dedupKeepFirst_nodup _
  · intro m
    constructor
    · intro hne
      unfold rawCandidates
      rw [if_neg]
      · rfl
      · simp only [List.isEmpty_iff]
        simpa [annotationUrls, List.isEmpty_iff] using hne
    · intro heq
      unfold rawCandidates
      rw [if_pos]
      simp only [List.isEmpty_iff]
      simpa [annotationUrls, List.isEmpty_iff] using heq
  · intro m ht hc he hce
    obtain ⟨t, c, es, ces, mid⟩ := m
    simp only at ht hc he hce
    subst ht hc he hce
    rfl

/-- C4 witness: a message with neither text nor caption extracts nothing. -/
theorem extract_links_contract_witness :
    extract_links ⟨none, none, [], [], 3⟩ = [] :=
  extract_links_contract.2.2 ⟨none, none, [], [], 3⟩ rfl rfl rfl rfl

/-! ## The link store: one Redis hash (`chat:{chat_id}`) per chat -/

/-- A reaction dictionary: Python dict from `str(user_id)` to the username
(possibly `None`), keyed here by the numeric user id. -/
abbrev RDict := List (Nat × Option String)

/-- Python `d[k] = v` on a dict: overwrite in place when the key is present,
append otherwise. -/
def dictInsert (d : RDict) (k : Nat) (v : Option String) : RDict :=
  if d.any (fun p => p.1 = k) then
    d.map (fun p => if p.1 = k then (k, v) else p)
  else d ++ [(k, v)]

/-- The decoded JSON record stored for one normalized URL: origin message id,
timestamp (seconds), and the two reaction dictionaries. `save_link` always
writes both dictionaries, so they are total fields here (the defensive
re-initialization loop in `add_reaction` is a no-op on such records). -/
structure LinkRecord where
  message_id : Nat
  timestamp : Int
  likes : RDict
  thumbs_up : RDict
  deriving DecidableEq, Repr

/-- A raw stored hash field: either decodes to a `LinkRecord` or is
malformed (`json.loads` / `datetime.fromisoformat` would raise on it). -/
inductive Stored where
  | ok : LinkRecord → Stored
  | malformed : Stored
  deriving DecidableEq, Repr

/-- One chat's Redis hash, as an association list of
(normalized URL, stored value) fields. -/
abbrev Hash := List (String × Stored)

/-- Redis `hget`: the first field with the given name, if any. -/
def hget (h : Hash) (f : String) : Option Stored :=
  (h.find? (fun p => p.1 = f)).map Prod.snd

/-- Redis `hset`: overwrite the field in place when present, append otherwise. -/
def hset (h : Hash) (f : String) (v : Stored) : Hash :=
  if h.any (fun p => p.1 = f) then
    h.map (fun p => if p.1 = f then (f, v) else p)
  else h ++ [(f, v)]

/-- Redis `hdel` with several fields: remove every listed field. -/
def hdelMany (h : Hash) (keys : List String) : Hash :=
  h.filter (fun p => ¬ keys.contains p.1)

/-- One chat's persisted state: the link hash plus the per-chat cleanup
counter `chat:{chat_id}:counter`. Distinct chats live under distinct Redis
keys, so the whole store is one independent `ChatState` per chat. -/
structure ChatState where
  links : Hash
  counter : Nat
  deriving DecidableEq, Repr

/-- The chat's slice of Redis: `none` models `redis_client is None`
(no backing store configured — degraded mode). -/
abbrev RState := Option ChatState

/-- `timedelta(days=365)` in seconds. -/
def days365 : Int := 365 * 86400

/-- `bot.py` `get_link_data`: `None` without a store, `hget` then
`json.loads` otherwise; a malformed stored field raises (`.error`). -/
def get_link_data (rs : RState) (url : String) : Except Unit (Option LinkRecord) :=
  match rs with
  | none => .ok none
  | some st =>
    match hget st.links url with
    | none => .ok none
    | some (.ok r) => .ok (some r)
    | some .malformed => .error ()

/-- `bot.py` `save_link`: no-op without a store; otherwise read the existing
record (or build a fresh one with empty reaction dictionaries), overwrite its
message id and timestamp, and `hset` it back. -/
def save_link (rs : RState) (url : String) (mid : Nat) (now : Int) :
    Except Unit RState :=
  match rs with
  | none => .ok none
  | some st => do
    let existing ← get_link_data rs url
    let base := existing.getD ⟨mid, now, [], []⟩
    let rec2 : LinkRecord := { base with message_id := mid, timestamp := now }
    .ok (some { st with links := hset st.links url (.ok rec2) })

/-- The `if/elif` chain of `add_reaction`: insert/overwrite the
(user id, username) pair in the dictionary selected by `reaction_type`
(`"like"` → `likes`, `"thumbs_up"` → `thumbs_up`, anything else selects
neither and leaves the record unchanged). -/
def applyReaction (r : LinkRecord) (user_id : Nat) (username : Option String)
    (reaction_type : String) : LinkRecord :=
  if reaction_type = "like" then
    { r with likes := dictInsert r.likes user_id username }
  else if reaction_type = "thumbs_up" then
    { r with thumbs_up := dictInsert r.thumbs_up user_id username }
  else r

/-- `bot.py` `add_reaction`: `False` without a store or without a record for
`url`; otherwise apply `applyReaction` to the decoded record, persist it and
return `True`. -/
def add_reaction (rs : RState) (url : String) (user_id : Nat)
    (username : Option String) (reaction_type : String) :
    Except Unit (Bool × RState) :=
  match rs with
  | none => .ok (false, none)
  | some st => do
    let ld ← get_link_data rs url
    match ld with
    | none => .ok (false, rs)
    | some r =>
      let r2 := applyReaction r user_id username reaction_type
      .ok (true, some { st with links := hset st.links url (.ok r2) })

/-- `bot.py` `increment_cleanup_counter`: returns 0 without a store;
otherwise `INCR` the per-chat counter, reset it to 0 once the incremented
value reaches 365, and return the incremented value. -/
def increment_cleanup_counter (rs : RState) : Nat × RState :=
  match rs with
  | none => (0, none)
  | some st =>
    let count := st.counter + 1
    if count ≥ 365 then (count, some { st with counter := 0 })
    else (count, some { st with counter := count })

/-- Whether a stored field is older than 365 days at time `now`
(malformed fields never qualify: decoding them raises and the `except`
branch skips them). -/
def isExpired (now : Int) (p : String × Stored) : Bool :=
  match p.2 with
  | .ok r => now - r.timestamp > days365
  | .malformed => false

/-- `bot.py` `cleanup_old_links`: enumerate the chat's fields, collect the
keys of records older than 365 days (skipping fields that fail to decode),
and delete them in one batched `hdel`. -/
def cleanup_old_links (rs : RState) (now : Int) : RState :=
  match rs with
  | none => none
  | some st =>
    let keys := (st.links.filter (isExpired now)).map Prod.fst
    if keys.isEmpty then some st
    else some { st with links := hdelMany st.links keys }

/-- `bot.py` `cmd_status` reply text: the stored-link count when Redis is
configured, the degraded-mode notice otherwise. -/
def cmd_status (rs : RState) : String :=
  match rs with
  | some st =>
    "📊 Статус хранилища:\n\n• Ссылок в памяти: <b>" ++ toString st.links.length ++
    "</b>\n• Данные сохраняются в Redis\n• Срок хранения: 365 дней"
  | none =>
    "ℹ️ Используется временное хранилище в памяти. Данные будут потеряны при перезапуска бота."

/-! ## The per-message engine (`check_duplicate_links`) -/

/-- An inbound message event as `check_duplicate_links` reads it. -/
structure Message where
  core : MessageCore
  reply_to : Option MessageCore
  sender_chat : Bool
  from_is_self : Bool
  from_user_id : Nat
  from_username : Option String
  chat_is_private : Bool
  deriving DecidableEq, Repr

/-- Outcome of the transport call `message.delete()`. -/
inductive DeleteResult where
  | ok
  | forbidden
  | badRequest
  deriving DecidableEq, Repr

/-- Observable transport actions of the engine, in order of occurrence. -/
inductive Action where
  | deleteMessage (mid : Nat)
  | replyAdminWarn
  | sendWarning (text : String)
  | scheduleDeleteWarning
  | replyAck
  | scheduleDeleteAck
  | replyButtons (likeData thumbsData : String)
  deriving DecidableEq, Repr

/-- The `chat_part` of the deep link: drop the first four characters of
`str(chat_id)` when it starts with `-100`, else `str(chat_id)` itself. -/
def chatPart (chat_id : Int) : String :=
  let s := (toString chat_id).toList
  if ['-', '1', '0', '0'].isPrefixOf s then String.mk (s.drop 4) else String.mk s

/-- The duplicate-warning text: embeds the duplicate's normalized URL and a
`t.me` deep link built from the stored origin message id. -/
def buildResponse (url : String) (chat_part : String) (origin_mid : Nat) : String :=
  "👮♂️ <b>Обнаружен дубликат ссылки!</b>\n\n" ++
  "Я нашел аналогичную ссылку в истории сообщений:\n<code>" ++ url ++
  "</code>\n\n<a href='https://t.me/c/" ++ chat_part ++ "/" ++ toString origin_mid ++
  "'>→ Перейти к оригиналу</a>"

/-- Python `pat in s`: substring containment. -/
def containsSub (s pat : String) : Bool :=
  s.toList.tails.any (fun t => pat.toList.isPrefixOf t)

/-- The reply branch's reaction-intent detection over the lower-cased text. -/
def detectReaction (text : String) : Option String :=
  if text = "нравится" ∨ text = "like" then some "like"
  else if containsSub text "👍" ∨ containsSub text "thumb" then some "thumbs_up"
  else none

/-- Step 1 of `check_duplicate_links`: scan the extracted links in order and
return the first one with an existing store record, together with its
decoded record; stop scanning there. -/
def findDup (rs : RState) : List String → Except Unit (Option (String × LinkRecord))
  | [] => .ok none
  | l :: ls => do
    let d ← get_link_data rs l
    match d with
    | some r => .ok (some (l, r))
    | none => findDup rs ls

/-- Step 3 of `check_duplicate_links`: save every extracted link under this
message. -/
def saveAll (rs : RState) (links : List String) (mid : Nat) (now : Int) :
    Except Unit RState :=
  match links with
  | [] => .ok rs
  | l :: ls => do
    let rs2 ← save_link rs l mid now
    saveAll rs2 ls mid now

/-- The reaction loop of the reply branch: `add_reaction` on every
replied-to link; `success` is the last call's result (`false` on an empty
list — the caller guarantees it is nonempty). -/
def foldAddReactions (rs : RState) (links : List String) (uid : Nat)
    (uname : Option String) (rtype : String) : Except Unit (Bool × RState) :=
  match links with
  | [] => .ok (false, rs)
  | [l] => add_reaction rs l uid uname rtype
  | l :: ls => do
    let r ← add_reaction rs l uid uname rtype
    foldAddReactions r.2 ls uid uname rtype

/-- `bot.py` `check_duplicate_links`, the per-message engine: skip channel
and self messages; with no extracted links, treat a reply carrying
reaction-intent text as a reaction event; otherwise scan for a duplicate
(first extracted URL with an existing record wins), delete and warn on a
duplicate — aborting with an admin-facing warning when the transport refuses
the deletion — and otherwise save all links, drive the retention sweeper and
solicit reactions. `delRes` is the transport's response to
`message.delete()`; `now` is the wall clock. Returns the chat's new store
state and the transport actions performed; `.error` is an uncaught Python
exception. -/
def check_duplicate_links (chat_id : Int) (now : Int) (delRes : DeleteResult)
    (rs : RState) (m : Message) : Except Unit (RState × List Action) :=
  if m.sender_chat || m.from_is_self then .ok (rs, [])
  else
    let links := extract_links m.core
    if links.isEmpty then
      match m.reply_to with
      | none => .ok (rs, [])
      | some rm =>
        let rlinks := extract_links rm
        if rlinks.isEmpty then .ok (rs, [])
        else
          match detectReaction (pyLower (m.core.text.getD "")) with
          | none => .ok (rs, [])
          | some rtype => do
            let res ← foldAddReactions rs rlinks m.from_user_id m.from_username rtype
            if res.1 then .ok (res.2, [.replyAck, .scheduleDeleteAck])
            else .ok (res.2, [])
    else do
      let dup ← findDup rs links
      match dup with
      | some dr =>
        match delRes with
        | .forbidden => .ok (rs, [.replyAdminWarn])
        | .badRequest => .ok (rs, [])
        | .ok =>
          .ok (rs, [.deleteMessage m.core.message_id,
                    .sendWarning (buildResponse dr.1 (chatPart chat_id) dr.2.message_id),
                    .scheduleDeleteWarning])
      | none => do
        let rs1 ← saveAll rs links m.core.message_id now
        let cr := increment_cleanup_counter rs1
        let rs2 := if cr.1 ≥ 365 then cleanup_old_links cr.2 now else cr.2
        let acts :=
          if m.chat_is_private then []
          else [Action.replyButtons ("reaction_like_" ++ toString m.core.message_id)
                  ("reaction_thumbs_" ++ toString m.core.message_id)]
        .ok (rs2, acts)

/-! ## The inline-button callback handler (`handle_reaction_callback`) -/

/-- Python `s.split(sep)` with a one-character separator (keeps empty pieces). -/
def splitOnSep (sep : Char) : List Char → List (List Char)
  | [] => [[]]
  | c :: cs =>
    let r := splitOnSep sep cs
    if c = sep then [] :: r
    else
      match r with
      | [] => [[c]]
      | h :: t => (c :: h) :: t

def pySplit (s : String) (sep : Char) : List String :=
  (splitOnSep sep s.toList).map String.mk

/-- Python `int(s)` on a plain digit string (`none` when `int` would raise). -/
def parseNat (s : String) : Option Nat :=
  if s.isEmpty || !(s.toList.all Char.isDigit) then none
  else some (s.toList.foldl (fun n c => n * 10 + (c.toNat - 48)) 0)

/-- The reaction loop of the callback handler under its blanket `except`:
the store state reached and whether an exception interrupted the loop. -/
def addAllReactions (rs : RState) (links : List String) (uid : Nat)
    (uname : Option String) (rtype : String) : RState × Bool :=
  match links with
  | [] => (rs, false)
  | l :: ls =>
    match add_reaction rs l uid uname rtype with
    | .error _ => (rs, true)
    | .ok r => addAllReactions r.2 ls uid uname rtype

/-- `await bot.get_message(chat_id=..., message_id=...)`: `aiogram.Bot` has
no `get_message` method (the Telegram Bot API offers no such call), so the
attribute access raises `AttributeError` on every invocation — modelled as
the always-raising `.error ()`. -/
def bot_get_message (chat_id : Int) (message_id : Nat) : Except Unit MessageCore :=
  .error ()

/-- `bot.py` `handle_reaction_callback`: split the callback data on `_`
(`parts[1]` is the reaction type, `parts[2]` the message id — a missing part
or non-numeric id raises), fetch the referenced message with
`bot.get_message` — which raises `AttributeError` on every call, see
`bot_get_message` — then re-extract its links, apply `add_reaction` with the
parsed type to every link, confirm to the user and delete the buttons
message (`cb_message_id`). The blanket `except` turns any raise into the
error answer; every raising point precedes the first store write, so the
caught state is the entry state. The branch below `bot_get_message`'s `.ok`
case is embedded from the source but is unreachable. Returns the store
state, the callback answer text, and the transport actions. -/
def handle_reaction_callback (rs : RState) (chat_id : Int) (data : String)
    (cb_message_id : Nat) (uid : Nat)
    (uname : Option String) : RState × String × List Action :=
  match (pySplit data '_').get? 1, (pySplit data '_').get? 2 with
  | some rtype, some midStr =>
    match parseNat midStr with
    | none => (rs, "❌ Произошла ошибка", [])
    | some mid =>
      match bot_get_message chat_id mid with
      | .error _ => (rs, "❌ Произошла ошибка", [])
      | .ok message =>
        let links := extract_links message
        if links.isEmpty then (rs, "❌ Ссылки не найдены", [])
        else
          let res := addAllReactions rs links uid uname rtype
          if res.2 then (res.1, "❌ Произошла ошибка", [])
          else
            ((res.1,
              (if rtype = "like" then "❤️" else "👍") ++ " Ваша реакция учтена!",
              [.deleteMessage cb_message_id]))
  | _, _ => (rs, "❌ Произошла ошибка", [])

/-! ## Store invariants -/

/-- Every stored field of the hash decodes to a record. -/
def cleanHash (h : Hash) : Prop := ∀ p ∈ h, p.2 ≠ Stored.malformed

/-- The invariant of reachable chat states: field keys pairwise distinct,
every field decodes, and the sweep counter strictly below the threshold. -/
def Inv : RState → Prop
  | none => True
  | some st => (st.links.map Prod.fst).Nodup ∧ cleanHash st.links ∧ st.counter < 365

theorem except_bind_ok {α β : Type} (a : α) (k : α → Except Unit β) :
    ((Except.ok a : Except Unit α) >>= k) = k a := rfl

theorem hset_keys_present {h : Hash} {f : String} (hp : h.any (fun p => p.1 = f)) (v : Stored) :
    (hset h f v).map Prod.fst = h.map Prod.fst := by
  unfold hset
  rw [if_pos hp, List.map_map]
  apply List.map_congr_left
  intro p _
  by_cases hc : p.1 = f
  · simp [hc]
  · simp [hc]

theorem hset_keys_absent {h : Hash} {f : String} (hp : ¬ h.any (fun p => p.1 = f)) (v : Stored) :
    (hset h f v).map Prod.fst = h.map Prod.fst ++ [f] := by
  unfold hset
  rw [if_neg hp]
  simp

theorem hset_keys_nodup {h : Hash} {f : String} (v : Stored)
    (hn : (h.map Prod.fst).Nodup) : ((hset h f v).map Prod.fst).Nodup := by
  by_cases hp : h.any (fun p => p.1 = f)
  · rw [hset_keys_present hp]
    exact hn
  · rw [hset_keys_absent hp]
    rw [List.nodup_append]
    refine ⟨hn, List.nodup_singleton f, ?_⟩
    intro a ha hb
    simp at hb
    subst hb
    rcases List.mem_map.mp ha with ⟨p, hpm, hpf⟩
    apply hp
    rw [List.any_eq_true]
    exact ⟨p, hpm, by simp [hpf]⟩

theorem mem_hset {h : Hash} {f : String} {v : Stored} {q : String × Stored}
    (hq : q ∈ hset h f v) : q = (f, v) ∨ q ∈ h := by
  unfold hset at hq
  split at hq
  · rcases List.mem_map.mp hq with ⟨p, hpm, hpq⟩
    by_cases hc : p.1 = f
    · simp [hc] at hpq
      exact Or.inl hpq.symm
    · simp [hc] at hpq
      exact Or.inr (hpq ▸ hpm)
  · rcases List.mem_append.mp hq with hm | hm
    · exact Or.inr hm
    · simp at hm
      exact Or.inl hm

theorem hset_clean {h : Hash} {f : String} {r : LinkRecord}
    (hc : cleanHash h) : cleanHash (hset h f (.ok r)) := by
  intro p hp
  rcases mem_hset hp with he | hm
  · rw [he]
    intro hbad
    exact Stored.noConfusion hbad
  · exact hc p hm

theorem get_link_data_clean {st : ChatState} (hc : cleanHash st.links) (url : String) :
    ∃ o, get_link_data (some st) url = .ok o := by
  cases hfind : st.links.find? (fun p => p.1 = url) with
  | none => exact ⟨none, by simp [get_link_data, hget, hfind]⟩
  | some p =>
    have hmem := List.mem_of_find?_eq_some hfind
    cases hv : p.2 with
    | ok r => exact ⟨some r, by simp [get_link_data, hget, hfind, hv]⟩
    | malformed => exact absurd hv (hc p hmem)

theorem get_link_data_none (url : String) : get_link_data none url = .ok none := rfl

theorem save_link_some {st : ChatState} (hc : cleanHash st.links)
    (url : String) (mid : Nat) (now : Int) :
    ∃ r : LinkRecord, save_link (some st) url mid now =
      .ok (some { st with links := hset st.links url (.ok r) }) ∧
      r.message_id = mid ∧ r.timestamp = now := by
  obtain ⟨o, ho⟩ := get_link_data_clean hc url
  cases o with
  | none =>
    exact ⟨⟨mid, now, [], []⟩, by simp [save_link, ho, except_bind_ok], rfl, rfl⟩
  | some r0 =>
    exact ⟨{ r0 with message_id := mid, timestamp := now },
      by simp [save_link, ho, except_bind_ok], rfl, rfl⟩

theorem save_link_inv {st : ChatState} (h : Inv (some st)) (url : String)
    (mid : Nat) (now : Int) :
    ∃ st2 : ChatState, save_link (some st) url mid now = .ok (some st2) ∧
      Inv (some st2) ∧ st2.counter = st.counter := by
  obtain ⟨hn, hc, hcnt⟩ := h
  obtain ⟨r, hr, -, -⟩ := save_link_some hc url mid now
  refine ⟨_, hr, ⟨hset_keys_nodup _ hn, hset_clean hc, hcnt⟩, rfl⟩

theorem saveAll_inv : ∀ (links : List String) {st : ChatState}, Inv (some st) →
    ∀ (mid : Nat) (now : Int),
    ∃ st2 : ChatState, saveAll (some st) links mid now = .ok (some st2) ∧
      Inv (some st2) ∧ st2.counter = st.counter := by
  intro links
  induction links with
  | nil => intro st h mid now; exact ⟨st, rfl, h, rfl⟩
  | cons l ls ih =>
    intro st h mid now
    obtain ⟨st1, h1, hinv1, hcnt1⟩ := save_link_inv h l mid now
    obtain ⟨st2, h2, hinv2, hcnt2⟩ := ih hinv1 mid now
    refine ⟨st2, ?_, hinv2, hcnt2.trans hcnt1⟩
    unfold saveAll
    rw [h1, except_bind_ok, h2]

theorem saveAll_none : ∀ (links : List String) (mid : Nat) (now : Int),
    saveAll none links mid now = .ok none := by
  intro links
  induction links with
  | nil => intro mid now; rfl
  | cons l ls ih => intro mid now; unfold saveAll save_link; exact ih mid now

theorem findDup_none : ∀ ls : List String, findDup none ls = .ok none := by
  intro ls
  induction ls with
  | nil => rfl
  | cons l ls ih => unfold findDup get_link_data; exact ih

theorem findDup_clean {st : ChatState} (hc : cleanHash st.links) :
    ∀ ls : List String, ∃ o, findDup (some st) ls = .ok o := by
  intro ls
  induction ls with
  | nil => exact ⟨none, rfl⟩
  | cons l ls ih =>
    obtain ⟨o, ho⟩ := get_link_data_clean hc l
    unfold findDup
    rw [ho, except_bind_ok]
    cases o with
    | none => exact ih
    | some r => exact ⟨some (l, r), rfl⟩

theorem add_reaction_inv {rs : RState} (h : Inv rs) (url : String) (uid : Nat)
    (uname : Option String) (rtype : String) :
    ∃ b rs2, add_reaction rs url uid uname rtype = .ok (b, rs2) ∧ Inv rs2 ∧
      (∀ st2 : ChatState, rs2 = some st2 → ∃ st : ChatState, rs = some st ∧ st2.counter = st.counter) := by
  cases rs with
  | none => exact ⟨false, none, rfl, trivial, by intro st2 h2; exact Option.noConfusion h2⟩
  | some st =>
    obtain ⟨hn, hc, hcnt⟩ := h
    obtain ⟨o, ho⟩ := get_link_data_clean hc url
    cases o with
    | none =>
      refine ⟨false, some st, ?_, ⟨hn, hc, hcnt⟩, ?_⟩
      · simp [add_reaction, ho, except_bind_ok]
      · intro st2 h2
        injection h2 with h2
        exact ⟨st, rfl, by rw [h2]⟩
    | some r =>
      refine ⟨true,
        some { st with links := hset st.links url (.ok (applyReaction r uid uname rtype)) },
        ?_, ⟨hset_keys_nodup _ hn, hset_clean hc, hcnt⟩, ?_⟩
      · simp [add_reaction, ho, except_bind_ok]
      · intro st2 h2
        injection h2 with h2
        exact ⟨st, rfl, by rw [← h2]⟩

theorem foldAddReactions_inv : ∀ (links : List String) {rs : RState}, Inv rs →
    ∀ (uid : Nat) (uname : Option String) (rtype : String),
    ∃ b rs2, foldAddReactions rs links uid uname rtype = .ok (b, rs2) ∧ Inv rs2 := by
  intro links
  induction links with
  | nil => intro rs h uid uname rtype; exact ⟨false, rs, rfl, h⟩
  | cons l ls ih =>
    intro rs h uid uname rtype
    obtain ⟨b, rs1, h1, hinv1, -⟩ := add_reaction_inv h l uid uname rtype
    cases ls with
    | nil => exact ⟨b, rs1, h1, hinv1⟩
    | cons l2 ls2 =>
      obtain ⟨b2, rs2, h2, hinv2⟩ := ih hinv1 uid uname rtype
      refine ⟨b2, rs2, ?_, hinv2⟩
      unfold foldAddReactions
      rw [h1, except_bind_ok, h2]

theorem cleanup_keys_sublist (st : ChatState) (now : Int) :
    ∃ st2 : ChatState, cleanup_old_links (some st) now = some st2 ∧
      st2.links.Sublist st.links ∧ st2.counter = st.counter := by
  by_cases he : ((st.links.filter (isExpired now)).map Prod.fst).isEmpty
  · exact ⟨st, by simp [cleanup_old_links, he], List.Sublist.refl _, rfl⟩
  · refine ⟨⟨hdelMany st.links ((st.links.filter (isExpired now)).map Prod.fst), st.counter⟩,
      by simp [cleanup_old_links, he], ?_, rfl⟩
    exact List.filter_sublist _

theorem cleanup_inv {rs : RState} (h : Inv rs) (now : Int) :
    Inv (cleanup_old_links rs now) := by
  cases rs with
  | none => exact trivial
  | some st =>
    obtain ⟨hn, hc, hcnt⟩ := h
    obtain ⟨st2, h2, hsub, hcnt2⟩ := cleanup_keys_sublist st now
    rw [h2]
    refine ⟨(hsub.map Prod.fst).nodup hn, ?_, hcnt2 ▸ hcnt⟩
    intro p hp
    exact hc p (hsub.subset hp)

/-! ## Path characterizations of the engine -/

theorem check_skip {m : Message} (h : (m.sender_chat || m.from_is_self) = true)
    (chat_id now : Int) (delRes : DeleteResult) (rs : RState) :
    check_duplicate_links chat_id now delRes rs m = .ok (rs, []) := by
  simp [check_duplicate_links, h]

/-- The inline-keyboard actions attached to a message that stored new links. -/
def buttonActions (m : Message) : List Action :=
  if m.chat_is_private then []
  else [Action.replyButtons ("reaction_like_" ++ toString m.core.message_id)
          ("reaction_thumbs_" ++ toString m.core.message_id)]

/-- The actions of the duplicate path, by deletion outcome. -/
def dupActions (chat_id : Int) (m : Message) (dr : String × LinkRecord) :
    DeleteResult → List Action
  | .forbidden => [.replyAdminWarn]
  | .badRequest => []
  | .ok => [.deleteMessage m.core.message_id,
            .sendWarning (buildResponse dr.1 (chatPart chat_id) dr.2.message_id),
            .scheduleDeleteWarning]

theorem check_dup {m : Message} {rs : RState} {dr : String × LinkRecord}
    (hns : m.sender_chat = false) (hnb : m.from_is_self = false)
    (hl : (extract_links m.core).isEmpty = false)
    (hfind : findDup rs (extract_links m.core) = .ok (some dr))
    (chat_id now : Int) (delRes : DeleteResult) :
    check_duplicate_links chat_id now delRes rs m =
      .ok (rs, dupActions chat_id m dr delRes) := by
  cases delRes <;>
    simp [check_duplicate_links, hns, hnb, hl, hfind, except_bind_ok, dupActions]

theorem check_allnew {m : Message} {st st1 : ChatState} {now : Int}
    (hns : m.sender_chat = false) (hnb : m.from_is_self = false)
    (hl : (extract_links m.core).isEmpty = false)
    (hfind : findDup (some st) (extract_links m.core) = .ok none)
    (hsave : saveAll (some st) (extract_links m.core) m.core.message_id now =
      .ok (some st1))
    (chat_id : Int) (delRes : DeleteResult) :
    check_duplicate_links chat_id now delRes (some st) m =
      .ok ((if st1.counter + 1 ≥ 365
              then cleanup_old_links (some { st1 with counter := 0 }) now
              else some { st1 with counter := st1.counter + 1 }),
           buttonActions m) := by
  by_cases hc : st1.counter + 1 ≥ 365
  · have h364 : 364 ≤ st1.counter := by omega
    have h365 : 365 ≤ st1.counter + 1 := by omega
    simp [check_duplicate_links, hns, hnb, hl, hfind, hsave, except_bind_ok,
      increment_cleanup_counter, buttonActions, hc, h364, h365]
  · have h364 : ¬ 364 ≤ st1.counter := by omega
    have h365 : ¬ 365 ≤ st1.counter + 1 := by omega
    simp [check_duplicate_links, hns, hnb, hl, hfind, hsave, except_bind_ok,
      increment_cleanup_counter, buttonActions, hc, h364, h365]

theorem check_nolinks_noreply {m : Message}
    (hns : m.sender_chat = false) (hnb : m.from_is_self = false)
    (hl : (extract_links m.core).isEmpty = true) (hr : m.reply_to = none)
    (chat_id now : Int) (delRes : DeleteResult) (rs : RState) :
    check_duplicate_links chat_id now delRes rs m = .ok (rs, []) := by
  simp [check_duplicate_links, hns, hnb, hl, hr]

theorem check_nolinks_emptyreply {m : Message} {rm : MessageCore}
    (hns : m.sender_chat = false) (hnb : m.from_is_self = false)
    (hl : (extract_links m.core).isEmpty = true) (hr : m.reply_to = some rm)
    (hrl : (extract_links rm).isEmpty = true)
    (chat_id now : Int) (delRes : DeleteResult) (rs : RState) :
    check_duplicate_links chat_id now delRes rs m = .ok (rs, []) := by
  simp [check_duplicate_links, hns, hnb, hl, hr, hrl]

theorem check_nolinks_nodetect {m : Message} {rm : MessageCore}
    (hns : m.sender_chat = false) (hnb : m.from_is_self = false)
    (hl : (extract_links m.core).isEmpty = true) (hr : m.reply_to = some rm)
    (hrl : (extract_links rm).isEmpty = false)
    (hd : detectReaction (pyLower (m.core.text.getD "")) = none)
    (chat_id now : Int) (delRes : DeleteResult) (rs : RState) :
    check_duplicate_links chat_id now delRes rs m = .ok (rs, []) := by
  simp [check_duplicate_links, hns, hnb, hl, hr, hrl, hd]

theorem check_reaction {m : Message} {rm : MessageCore} {rtype : String}
    {rs : RState} {b : Bool} {rs2 : RState}
    (hns : m.sender_chat = false) (hnb : m.from_is_self = false)
    (hl : (extract_links m.core).isEmpty = true) (hr : m.reply_to = some rm)
    (hrl : (extract_links rm).isEmpty = false)
    (hd : detectReaction (pyLower (m.core.text.getD "")) = some rtype)
    (hfold : foldAddReactions rs (extract_links rm) m.from_user_id
      m.from_username rtype = .ok (b, rs2))
    (chat_id now : Int) (delRes : DeleteResult) :
    check_duplicate_links chat_id now delRes rs m =
      .ok (rs2, if b then [.replyAck, .scheduleDeleteAck] else []) := by
  cases b <;>
    simp [check_duplicate_links, hns, hnb, hl, hr, hrl, hd, hfold, except_bind_ok]

/-! ## Event sequences -/

/-- One processed message event: wall-clock time, the transport's response
to a deletion attempt, and the message itself. -/
structure MsgEvent where
  now : Int
  delRes : DeleteResult
  msg : Message

/-- The chat state after one processed message event. (An uncaught
exception leaves the store as it was when the handler was entered; on
invariant states the handler never raises, and the only raising spot,
the duplicate scan, precedes every write.) -/
def stepMsg (chat_id : Int) (e : MsgEvent) (rs : RState) : RState :=
  match check_duplicate_links chat_id e.now e.delRes rs e.msg with
  | .ok r => r.1
  | .error _ => rs

/-- The chat state after a sequence of processed message events. -/
def runEvents (chat_id : Int) (evs : List MsgEvent) (rs : RState) : RState :=
  evs.foldl (fun s e => stepMsg chat_id e s) rs

theorem stepMsg_inv (chat_id : Int) (e : MsgEvent) {rs : RState} (h : Inv rs) :
    Inv (stepMsg chat_id e rs) := by
  unfold stepMsg
  by_cases hskip : (e.msg.sender_chat || e.msg.from_is_self) = true
  · rw [check_skip hskip]
    exact h
  · rw [Bool.or_eq_true] at hskip
    push_neg at hskip
    have hns : e.msg.sender_chat = false := by
      cases hb : e.msg.sender_chat
      · rfl
      · exact absurd hb hskip.1
    have hnb : e.msg.from_is_self = false := by
      cases hb : e.msg.from_is_self
      · rfl
      · exact absurd hb hskip.2
    by_cases hl : (extract_links e.msg.core).isEmpty
    · cases hr : e.msg.reply_to with
      | none =>
        rw [check_nolinks_noreply hns hnb hl hr]
        exact h
      | some rm =>
        by_cases hrl : (extract_links rm).isEmpty
        · rw [check_nolinks_emptyreply hns hnb hl hr hrl]
          exact h
        · rw [Bool.not_eq_true] at hrl
          cases hd : detectReaction (pyLower (e.msg.core.text.getD "")) with
          | none =>
            rw [check_nolinks_nodetect hns hnb hl hr hrl hd]
            exact h
          | some rtype =>
            obtain ⟨b, rs2, hfold, hinv2⟩ :=
              foldAddReactions_inv (extract_links rm) h e.msg.from_user_id
                e.msg.from_username rtype
            rw [check_reaction hns hnb hl hr hrl hd hfold]
            exact hinv2
    · rw [Bool.not_eq_true] at hl
      cases rs with
      | none =>
        have hfind := findDup_none (extract_links e.msg.core)
        have hsave := saveAll_none (extract_links e.msg.core) e.msg.core.message_id e.now
        simp [check_duplicate_links, hns, hnb, hl, hfind, hsave, except_bind_ok,
          increment_cleanup_counter]
        exact h
      | some st =>
        obtain ⟨o, ho⟩ := findDup_clean h.2.1 (extract_links e.msg.core)
        cases o with
        | some dr =>
          rw [check_dup hns hnb hl ho]
          exact h
        | none =>
          obtain ⟨st1, hsave, hinv1, hcnt1⟩ :=
            saveAll_inv (extract_links e.msg.core) h e.msg.core.message_id e.now
          rw [check_allnew hns hnb hl ho hsave]
          by_cases hc : st1.counter + 1 ≥ 365
          · rw [if_pos hc]
            have hz : Inv (some { st1 with counter := 0 }) :=
              ⟨hinv1.1, hinv1.2.1, by show (0 : Nat) < 365; decide⟩
            exact cleanup_inv hz e.now
          · rw [if_neg hc]
            exact ⟨hinv1.1, hinv1.2.1, by show st1.counter + 1 < 365; omega⟩

theorem runEvents_inv (chat_id : Int) (evs : List MsgEvent) :
    ∀ {rs : RState}, Inv rs → Inv (runEvents chat_id evs rs) := by
  induction evs with
  | nil => intro rs h; exact h
  | cons e evs ih =>
    intro rs h
    exact ih (stepMsg_inv chat_id e h)

/-- The empty chat state at startup: no stored fields, counter 0. -/
def initState : RState := some ⟨[], 0⟩

theorem initState_inv : Inv initState :=
  ⟨List.nodup_nil, fun p hp => absurd hp (List.not_mem_nil p), by decide⟩

theorem length_filter_key_le_one : ∀ {h : Hash}, (h.map Prod.fst).Nodup →
    ∀ url : String, (h.filter (fun p => p.1 = url)).length ≤ 1 := by
  intro h
  induction h with
  | nil => intro _ url; simp
  | cons p t ih =>
    intro hn url
    rw [List.map_cons, List.nodup_cons] at hn
    by_cases hp : p.1 = url
    · have hnone : t.filter (fun q => decide (q.1 = url)) = [] := by
        rw [List.filter_eq_nil_iff]
        intro q hq
        simp only [decide_eq_true_eq]
        intro hqu
        apply hn.1
        rw [hp, ← hqu]
        exact List.mem_map_of_mem Prod.fst hq
      simp [List.filter_cons, hp, hnone]
    · simp only [List.filter_cons, decide_eq_true_eq, hp, if_false]
      exact ih hn.2 url

theorem findDup_found {st : ChatState} (hc : cleanHash st.links) :
    ∀ {ls : List String} {u : String} {r : LinkRecord}, u ∈ ls →
      get_link_data (some st) u = .ok (some r) →
      ∃ dr, findDup (some st) ls = .ok (some dr) := by
  intro ls
  induction ls with
  | nil => intro u r hu; exact absurd hu (List.not_mem_nil u)
  | cons l t ih =>
    intro u r hu hg
    obtain ⟨o, ho⟩ := get_link_data_clean hc l
    cases o with
    | some r2 => exact ⟨(l, r2), by simp [findDup, ho, except_bind_ok]⟩
    | none =>
      rcases List.mem_cons.mp hu with rfl | hmem
      · rw [ho] at hg
        exact Option.noConfusion (Except.ok.inj hg)
      · obtain ⟨dr, hdr⟩ := ih hmem hg
        exact ⟨dr, by simp [findDup, ho, except_bind_ok, hdr]⟩

/-- C1: the store is a per-chat Redis hash keyed by normalized URL — after
any sequence of processed message events starting from the empty store, the
chat's hash holds at most one field per normalized URL; and a write happens
only when the duplicate check found no existing record for any extracted
URL: a message one of whose extracted URLs already has a record leaves the
store exactly unchanged, so a repost is never written. -/
theorem store_at_most_one_record :
    (∀ (chat_id : Int) (evs : List MsgEvent) (st : ChatState),
        runEvents chat_id evs initState = some st →
        ∀ url : String, (st.links.filter (fun p => p.1 = url)).length ≤ 1) ∧
    (∀ (chat_id now : Int) (delRes : DeleteResult) (rs : RState) (m : Message)
        (u : String) (r : LinkRecord),
        Inv rs → m.sender_chat = false → m.from_is_self = false →
        u ∈ extract_links m.core → get_link_data rs u = .ok (some r) →
        ∃ acts, check_duplicate_links chat_id now delRes rs m = .ok (rs, acts)) := by
  constructor
  · intro chat_id evs st hrun url
    have hinv : Inv (runEvents chat_id evs initState) :=
      runEvents_inv chat_id evs initState_inv
    rw [hrun] at hinv
    exact length_filter_key_le_one hinv.1 url
  · intro chat_id now delRes rs m u r hinv hns hnb hu hg
    cases rs with
    | none =>
      rw [get_link_data_none] at hg
      exact Option.noConfusion (Except.ok.inj hg)
    | some st =>
      have hl : (extract_links m.core).isEmpty = false := by
        cases hcase : extract_links m.core
        · rw [hcase] at hu
          exact absurd hu (List.not_mem_nil u)
        · rfl
      obtain ⟨dr, hdr⟩ := findDup_found hinv.2.1 hu hg
      exact ⟨dupActions chat_id m dr delRes, check_dup hns hnb hl hdr chat_id now delRes⟩

/-- C1 witness: a repost of the stored `https://a.com/x` leaves the store
unchanged. -/
theorem store_at_most_one_record_witness :
    ∃ acts,
      check_duplicate_links (-100123) 2000 .ok
        (some ⟨[("https://a.com/x", .ok ⟨1, 1000, [], []⟩)], 1⟩)
        ⟨⟨some "https://a.com/x", none, [], [], 2⟩, none, false, false, 11, some "v", false⟩ =
      .ok (some ⟨[("https://a.com/x", .ok ⟨1, 1000, [], []⟩)], 1⟩, acts) :=
  store_at_most_one_record.2 (-100123) 2000 .ok
    (some ⟨[("https://a.com/x", .ok ⟨1, 1000, [], []⟩)], 1⟩)
    ⟨⟨some "https://a.com/x", none, [], [], 2⟩, none, false, false, 11, some "v", false⟩
    "https://a.com/x" ⟨1, 1000, [], []⟩
    ⟨by decide, by intro p hp; rw [List.mem_singleton] at hp; subst hp; decide, by decide⟩
    rfl rfl (by decide) rfl

theorem findDup_first {st : ChatState} :
    ∀ (pre : List String) {post : List String} {u : String} {r : LinkRecord},
      (∀ v ∈ pre, get_link_data (some st) v = .ok none) →
      get_link_data (some st) u = .ok (some r) →
      findDup (some st) (pre ++ u :: post) = .ok (some (u, r)) := by
  intro pre
  induction pre with
  | nil =>
    intro post u r _ hu
    simp [findDup, hu, except_bind_ok]
  | cons v t ih =>
    intro post u r hpre hu
    have hv := hpre v (List.mem_cons_self v t)
    have hrec := @ih post u r (fun w hw => hpre w (List.mem_cons_of_mem v hw)) hu
    simp only [List.cons_append]
    simp [findDup, hv, except_bind_ok, hrec]

/-- C2: when the extracted URL list contains stored URLs, the first such URL
in extraction order wins and scanning stops there; the engine deletes the
inbound message, sends the warning that embeds that normalized URL and the
`t.me` deep link built from the stored origin message id, schedules the
warning's deletion, and writes none of the message's URLs — the store comes
back exactly unchanged. -/
theorem duplicate_detection_first_wins
    (chat_id now : Int) (st : ChatState) (m : Message)
    (pre post : List String) (u : String) (r : LinkRecord)
    (hns : m.sender_chat = false) (hnb : m.from_is_self = false)
    (hsplit : extract_links m.core = pre ++ u :: post)
    (hpre : ∀ v ∈ pre, get_link_data (some st) v = .ok none)
    (hu : get_link_data (some st) u = .ok (some r)) :
    check_duplicate_links chat_id now .ok (some st) m =
      .ok (some st,
        [.deleteMessage m.core.message_id,
         .sendWarning (buildResponse u (chatPart chat_id) r.message_id),
         .scheduleDeleteWarning]) := by
  have hl : (extract_links m.core).isEmpty = false := by
    rw [hsplit]
    cases pre <;> rfl
  have hfind : findDup (some st) (extract_links m.core) = .ok (some (u, r)) := by
    rw [hsplit]
    exact findDup_first pre hpre hu
  exact check_dup hns hnb hl hfind chat_id now .ok

/-- C2 witness: with `https://a.com/x` stored from message 1, a message
posting `https://a.com/x?utm=1` is detected as its duplicate — deleted, and
the warning names the normalized URL and deep-links to message 1. -/
theorem duplicate_detection_first_wins_witness :
    check_duplicate_links (-100123) 2000 .ok
      (some ⟨[("https://a.com/x", .ok ⟨1, 1000, [], []⟩)], 1⟩)
      ⟨⟨some "https://a.com/x?utm=1", none, [], [], 2⟩, none, false, false, 11, some "v", false⟩ =
    .ok (some ⟨[("https://a.com/x", .ok ⟨1, 1000, [], []⟩)], 1⟩,
      [.deleteMessage 2,
       .sendWarning (buildResponse "https://a.com/x" (chatPart (-100123)) 1),
       .scheduleDeleteWarning]) :=
  duplicate_detection_first_wins (-100123) 2000
    ⟨[("https://a.com/x", .ok ⟨1, 1000, [], []⟩)], 1⟩
    ⟨⟨some "https://a.com/x?utm=1", none, [], [], 2⟩, none, false, false, 11, some "v", false⟩
    [] [] "https://a.com/x" ⟨1, 1000, [], []⟩
    rfl rfl (by decide) (by intro v hv; exact absurd hv (List.not_mem_nil v)) rfl

theorem cleanup_filter_char {st : ChatState}
    (hn : (st.links.map Prod.fst).Nodup) (now : Int) :
    cleanup_old_links (some st) now =
      some { st with links := st.links.filter (fun p => !(isExpired now p)) } := by
  have hiff : ∀ p ∈ st.links,
      ((st.links.filter (isExpired now)).map Prod.fst).contains p.1 = isExpired now p := by
    intro p hp
    by_cases hx : isExpired now p = true
    · rw [hx]
      have hpmem : p.1 ∈ (st.links.filter (isExpired now)).map Prod.fst :=
        List.mem_map_of_mem Prod.fst (List.mem_filter.mpr ⟨hp, hx⟩)
      simpa using hpmem
    · have hx2 : isExpired now p = false := by
        revert hx
        cases isExpired now p <;> simp
      rw [hx2]
      cases hcont : ((st.links.filter (isExpired now)).map Prod.fst).contains p.1
      · rfl
      · exfalso
        have hmem : p.1 ∈ (st.links.filter (isExpired now)).map Prod.fst := by
          simpa using hcont
        rcases List.mem_map.mp hmem with ⟨q, hqf, hq1⟩
        have hqmem := (List.mem_filter.mp hqf).1
        have hqexp := (List.mem_filter.mp hqf).2
        have hqp : q = p := List.inj_on_of_nodup_map hn hqmem hp hq1
        rw [hqp, hx2] at hqexp
        exact Bool.noConfusion hqexp
  by_cases he : ((st.links.filter (isExpired now)).map Prod.fst).isEmpty
  · have hkeys : (st.links.filter (isExpired now)).map Prod.fst = [] :=
      List.isEmpty_iff.mp he
    have hall : ∀ p ∈ st.links, isExpired now p = false := by
      intro p hp
      have := hiff p hp
      rw [hkeys] at this
      simpa using this.symm
    have hself : st.links.filter (fun p => !(isExpired now p)) = st.links :=
      List.filter_eq_self.mpr (fun p hp => by rw [hall p hp]; rfl)
    simp [cleanup_old_links, he, hself]
  · simp only [cleanup_old_links, he, if_neg, Bool.false_eq_true, not_false_iff]
    have hfil : hdelMany st.links ((st.links.filter (isExpired now)).map Prod.fst)
        = st.links.filter (fun p => !(isExpired now p)) := by
      unfold hdelMany
      apply List.filter_congr
      intro p hp
      rw [hiff p hp]
      cases isExpired now p <;> simp
    rw [hfil]

/-- C5: `increment_cleanup_counter` increments the per-chat counter and,
exactly when the incremented value reaches 365 (reachable counters stay
strictly below 365, so "reaches 365" and "is at least 365" coincide), the
engine runs a sweep and the counter resets to 0; the sweep keeps exactly
the fields that are not expired records — it collects precisely the URLs
whose age strictly exceeds 365 days, removes them in one batched `hdel`,
and a field that fails to decode is skipped (never collected, never
blocking) while the sweep continues over the remaining fields. -/
theorem retention_sweeper_spec :
    (∀ (chat_id : Int) (evs : List MsgEvent) (st : ChatState),
        runEvents chat_id evs initState = some st → st.counter < 365) ∧
    (∀ st : ChatState, st.counter < 365 →
        increment_cleanup_counter (some st) =
          (st.counter + 1,
            some { st with counter := if st.counter + 1 = 365 then 0 else st.counter + 1 }) ∧
        (st.counter + 1 ≥ 365 ↔ st.counter + 1 = 365)) ∧
    (∀ (st : ChatState) (now : Int), (st.links.map Prod.fst).Nodup →
        cleanup_old_links (some st) now =
          some { st with links := st.links.filter (fun p => !(isExpired now p)) }) ∧
    (∀ (chat_id now : Int) (delRes : DeleteResult) (st st1 : ChatState) (m : Message),
        Inv (some st) →
        m.sender_chat = false → m.from_is_self = false →
        (extract_links m.core).isEmpty = false →
        findDup (some st) (extract_links m.core) = .ok none →
        saveAll (some st) (extract_links m.core) m.core.message_id now = .ok (some st1) →
        check_duplicate_links chat_id now delRes (some st) m =
          .ok ((if st.counter = 364
                  then cleanup_old_links (some { st1 with counter := 0 }) now
                  else some { st1 with counter := st.counter + 1 }),
               buttonActions m)) := by
  refine ⟨?_, ?_, ?_, ?_⟩
  · intro chat_id evs st hrun
    have hinv : Inv (runEvents chat_id evs initState) :=
      runEvents_inv chat_id evs initState_inv
    rw [hrun] at hinv
    exact hinv.2.2
  · intro st hcnt
    constructor
    · by_cases hc : st.counter + 1 ≥ 365
      · have heq : st.counter + 1 = 365 := by omega
        simp [increment_cleanup_counter, hc, heq]
      · have hne : ¬ st.counter + 1 = 365 := by omega
        simp [increment_cleanup_counter, hc, hne]
    · omega
  · intro st now hn
    exact cleanup_filter_char hn now
  · intro chat_id now delRes st st1 m hinv hns hnb hl hfind hsave
    obtain ⟨st1b, hsave2, hinv1, hcnt1⟩ :=
      saveAll_inv (extract_links m.core) hinv m.core.message_id now
    rw [hsave] at hsave2
    have hst1 : st1b = st1 := by
      injection Except.ok.inj hsave2 with h2
      exact h2.symm
    rw [hst1] at hinv1 hcnt1
    have hc365 : st.counter < 365 := hinv.2.2
    by_cases hc : st.counter = 364
    · have hge : st1.counter + 1 ≥ 365 := by omega
      rw [check_allnew hns hnb hl hfind hsave, if_pos hge, if_pos hc]
    · have hlt : ¬ st1.counter + 1 ≥ 365 := by omega
      rw [check_allnew hns hnb hl hfind hsave, if_neg hlt, if_neg hc]
      have hplus : st1.counter + 1 = st.counter + 1 := by rw [hcnt1]
      rw [hplus]

/-- C5 witness: from counter 364 the increment reports 365 and resets to 0;
a sweep over a hash holding an expired record, a malformed field and a
fresh record removes exactly the expired one, keeping the malformed field
(skipped) and the fresh record. -/
theorem retention_sweeper_spec_witness :
    increment_cleanup_counter (some ⟨[], 364⟩) = (365, some ⟨[], 0⟩) ∧
    cleanup_old_links
        (some ⟨[("https://old.com", .ok ⟨1, 0, [], []⟩), ("poison", .malformed),
                ("https://new.com", .ok ⟨2, 39000000, [], []⟩)], 7⟩) 40000000 =
      some ⟨[("poison", .malformed), ("https://new.com", .ok ⟨2, 39000000, [], []⟩)], 7⟩ := by
  constructor
  · have h := (retention_sweeper_spec.2.1 ⟨[], 364⟩ (by decide)).1
    simpa using h
  · have h := retention_sweeper_spec.2.2.1
      ⟨[("https://old.com", .ok ⟨1, 0, [], []⟩), ("poison", .malformed),
        ("https://new.com", .ok ⟨2, 39000000, [], []⟩)], 7⟩ 40000000 (by decide)
    rw [h]
    decide

/-! ## Reactions -/

theorem add_reaction_get_none {st : ChatState} {url : String} (uid : Nat)
    (uname : Option String) (kind : String)
    (hg : get_link_data (some st) url = .ok none) :
    add_reaction (some st) url uid uname kind = .ok (false, some st) := by
  simp [add_reaction, hg, except_bind_ok]

theorem add_reaction_get_some {st : ChatState} {url : String} {r : LinkRecord}
    (uid : Nat) (uname : Option String) (kind : String)
    (hg : get_link_data (some st) url = .ok (some r)) :
    add_reaction (some st) url uid uname kind =
      .ok (true, some { st with
        links := hset st.links url (.ok (applyReaction r uid uname kind)) }) := by
  simp [add_reaction, hg, except_bind_ok]

theorem add_reaction_get_err {st : ChatState} {url : String} (uid : Nat)
    (uname : Option String) (kind : String)
    (hg : get_link_data (some st) url = .error ()) :
    add_reaction (some st) url uid uname kind = .error () := by
  simp [add_reaction, hg]
  rfl

/-- C6 counterexample: on a store holding a record with empty reaction
dictionaries, `add_reaction` with the kind `"thumbs"` returns `True` yet
persists the store completely unchanged — the (7, "bob") pair is inserted
under no kind at all, refuting "when a record exists it inserts or
overwrites the (userId, displayName) pair under the given kind". -/
theorem add_reaction_given_kind_cex :
    add_reaction (some ⟨[("https://a.com/x", Stored.ok ⟨1, 1000, [], []⟩)], 0⟩)
        "https://a.com/x" 7 (some "bob") "thumbs" =
      .ok (true, some ⟨[("https://a.com/x", Stored.ok ⟨1, 1000, [], []⟩)], 0⟩) := by
  rfl

/-- C6 (amended): `add_reaction` returns `False` exactly when no record
exists for the URL (in degraded mode nothing is ever stored and it returns
`False`); when a record exists it persists the `applyReaction`-updated
record and returns `True` — for kind `"like"` the (userId, displayName)
pair is inserted/overwritten under `likes`, for `"thumbs_up"` under
`thumbs_up`, and for any other kind the record is re-persisted with both
reaction sets unchanged while still returning `True`. -/
theorem add_reaction_spec :
    (∀ (url : String) (uid : Nat) (uname : Option String) (kind : String),
        add_reaction none url uid uname kind = .ok (false, none)) ∧
    (∀ (st : ChatState) (url : String) (uid : Nat) (uname : Option String)
        (kind : String),
        get_link_data (some st) url = .ok none →
        add_reaction (some st) url uid uname kind = .ok (false, some st)) ∧
    (∀ (st : ChatState) (url : String) (uid : Nat) (uname : Option String)
        (kind : String) (r : LinkRecord),
        get_link_data (some st) url = .ok (some r) →
        add_reaction (some st) url uid uname kind =
          .ok (true, some { st with
            links := hset st.links url (.ok (applyReaction r uid uname kind)) })) ∧
    (∀ (r : LinkRecord) (uid : Nat) (uname : Option String),
        applyReaction r uid uname "like" =
          { r with likes := dictInsert r.likes uid uname } ∧
        applyReaction r uid uname "thumbs_up" =
          { r with thumbs_up := dictInsert r.thumbs_up uid uname } ∧
        (∀ kind, kind ≠ "like" → kind ≠ "thumbs_up" →
          applyReaction r uid uname kind = r)) := by
  refine ⟨?_, ?_, ?_, ?_⟩
  · intro url uid uname kind
    rfl
  · intro st url uid uname kind hg
    exact add_reaction_get_none uid uname kind hg
  · intro st url uid uname kind r hg
    exact add_reaction_get_some uid uname kind hg
  · intro r uid uname
    have hne : ¬ ("thumbs_up" : String) = "like" := by decide
    refine ⟨rfl, by simp [applyReaction, hne], ?_⟩
    intro kind h1 h2
    simp [applyReaction, h1, h2]

/-- C6 witness: with no record for `https://b.com`, the call reports
failure and leaves the store alone. -/
theorem add_reaction_spec_witness :
    add_reaction (some ⟨[("https://a.com/x", .ok ⟨1, 1000, [], []⟩)], 0⟩)
        "https://b.com" 7 (some "bob") "like" =
      .ok (false, some ⟨[("https://a.com/x", .ok ⟨1, 1000, [], []⟩)], 0⟩) :=
  add_reaction_spec.2.1 ⟨[("https://a.com/x", .ok ⟨1, 1000, [], []⟩)], 0⟩
    "https://b.com" 7 (some "bob") "like" rfl

theorem filter_key_eq_singleton {α β : Type} [DecidableEq α] :
    ∀ {h : List (α × β)}, (h.map Prod.fst).Nodup → ∀ {p : α × β}, p ∈ h →
      h.filter (fun q => q.1 = p.1) = [p] := by
  intro h
  induction h with
  | nil => intro _ p hp; exact absurd hp (List.not_mem_nil p)
  | cons q t ih =>
    intro hn p hp
    rw [List.map_cons, List.nodup_cons] at hn
    by_cases hc : q.1 = p.1
    · have hqp : q = p := by
        rcases List.mem_cons.mp hp with rfl | hpt
        · rfl
        · exact absurd (hc ▸ List.mem_map_of_mem Prod.fst hpt) hn.1
      have htail : t.filter (fun x => decide (x.1 = p.1)) = [] := by
        rw [List.filter_eq_nil_iff]
        intro x hx
        simp only [decide_eq_true_eq]
        intro hxp
        exact hn.1 (by rw [hc]; rw [← hxp]; exact List.mem_map_of_mem Prod.fst hx)
      simp [List.filter_cons, hc, htail, hqp]
    · have hpt : p ∈ t := by
        rcases List.mem_cons.mp hp with rfl | hpt
        · exact absurd rfl hc
        · exact hpt
      simp only [List.filter_cons, decide_eq_true_eq, hc, if_false]
      exact ih hn.2 hpt

theorem dictInsert_keys_nodup {d : RDict} (k : Nat) (v : Option String)
    (hn : (d.map Prod.fst).Nodup) : ((dictInsert d k v).map Prod.fst).Nodup := by
  by_cases hp : d.any (fun p => p.1 = k)
  · have hkeys : (dictInsert d k v).map Prod.fst = d.map Prod.fst := by
      unfold dictInsert
      rw [if_pos hp, List.map_map]
      apply List.map_congr_left
      intro p _
      by_cases hc : p.1 = k
      · simp [hc]
      · simp [hc]
    rw [hkeys]
    exact hn
  · have hkeys : (dictInsert d k v).map Prod.fst = d.map Prod.fst ++ [k] := by
      unfold dictInsert
      rw [if_neg hp]
      simp
    rw [hkeys, List.nodup_append]
    refine ⟨hn, List.nodup_singleton k, ?_⟩
    intro a ha hb
    simp at hb
    subst hb
    rcases List.mem_map.mp ha with ⟨p, hpm, hpf⟩
    apply hp
    rw [List.any_eq_true]
    exact ⟨p, hpm, by simp [hpf]⟩

theorem mem_dictInsert_self (d : RDict) (k : Nat) (v : Option String) :
    (k, v) ∈ dictInsert d k v := by
  by_cases hp : d.any (fun p => p.1 = k)
  · unfold dictInsert
    rw [if_pos hp]
    rcases List.any_eq_true.mp hp with ⟨q, hq, hqk⟩
    simp only [decide_eq_true_eq] at hqk
    have hmap := List.mem_map_of_mem (fun p => if p.1 = k then (k, v) else p) hq
    simp only [hqk, if_pos] at hmap
    exact hmap
  · unfold dictInsert
    rw [if_neg hp]
    simp

theorem mem_dictInsert_key {d : RDict} {k : Nat} {v : Option String}
    {p : Nat × Option String} (hp : p ∈ dictInsert d k v) (hk : p.1 = k) :
    p = (k, v) := by
  by_cases hpres : d.any (fun q => q.1 = k)
  · rw [dictInsert, if_pos hpres] at hp
    rcases List.mem_map.mp hp with ⟨q, hq, hqe⟩
    by_cases hc : q.1 = k
    · simp [hc] at hqe
      exact hqe.symm
    · simp [hc] at hqe
      subst hqe
      exact absurd hk hc
  · rw [dictInsert, if_neg hpres] at hp
    rcases List.mem_append.mp hp with hm | hm
    · exfalso
      apply hpres
      rw [List.any_eq_true]
      exact ⟨p, hm, by simp [hk]⟩
    · simpa using hm

theorem dictInsert_any (d : RDict) (k : Nat) (v : Option String) :
    (dictInsert d k v).any (fun p => p.1 = k) = true := by
  rw [List.any_eq_true]
  exact ⟨(k, v), mem_dictInsert_self d k v, by simp⟩

theorem dictInsert_idem (d : RDict) (k : Nat) (v : Option String) :
    dictInsert (dictInsert d k v) k v = dictInsert d k v := by
  have hany := dictInsert_any d k v
  conv_lhs => rw [dictInsert]
  rw [if_pos hany]
  have : ∀ p ∈ dictInsert d k v,
      (if p.1 = k then ((k, v) : Nat × Option String) else p) = id p := by
    intro p hp
    by_cases hc : p.1 = k
    · rw [if_pos hc, mem_dictInsert_key hp hc]
      rfl
    · rw [if_neg hc]
      rfl
  rw [List.map_congr_left this, List.map_id]

theorem filter_dictInsert_self {d : RDict} (k : Nat) (v : Option String)
    (hn : (d.map Prod.fst).Nodup) :
    (dictInsert d k v).filter (fun p => p.1 = k) = [(k, v)] :=
  filter_key_eq_singleton (dictInsert_keys_nodup k v hn) (mem_dictInsert_self d k v)

theorem mem_hset_self (h : Hash) (f : String) (v : Stored) :
    (f, v) ∈ hset h f v := by
  by_cases hp : h.any (fun p => p.1 = f)
  · unfold hset
    rw [if_pos hp]
    rcases List.any_eq_true.mp hp with ⟨q, hq, hqf⟩
    simp only [decide_eq_true_eq] at hqf
    have hmap := List.mem_map_of_mem (fun p => if p.1 = f then (f, v) else p) hq
    simp only [hqf, if_pos] at hmap
    exact hmap
  · unfold hset
    rw [if_neg hp]
    simp

theorem mem_hset_key {h : Hash} {f : String} {v : Stored} {p : String × Stored}
    (hp : p ∈ hset h f v) (hk : p.1 = f) : p = (f, v) := by
  by_cases hpres : h.any (fun q => q.1 = f)
  · rw [hset, if_pos hpres] at hp
    rcases List.mem_map.mp hp with ⟨q, hq, hqe⟩
    by_cases hc : q.1 = f
    · simp [hc] at hqe
      exact hqe.symm
    · simp [hc] at hqe
      subst hqe
      exact absurd hk hc
  · rw [hset, if_neg hpres] at hp
    rcases List.mem_append.mp hp with hm | hm
    · exfalso
      apply hpres
      rw [List.any_eq_true]
      exact ⟨p, hm, by simp [hk]⟩
    · simpa using hm

theorem hset_any (h : Hash) (f : String) (v : Stored) :
    (hset h f v).any (fun p => p.1 = f) = true := by
  rw [List.any_eq_true]
  exact ⟨(f, v), mem_hset_self h f v, by simp⟩

theorem hset_hset_same (h : Hash) (f : String) (v : Stored) :
    hset (hset h f v) f v = hset h f v := by
  have hany := hset_any h f v
  conv_lhs => rw [hset]
  rw [if_pos hany]
  have : ∀ p ∈ hset h f v,
      (if p.1 = f then ((f, v) : String × Stored) else p) = id p := by
    intro p hp
    by_cases hc : p.1 = f
    · rw [if_pos hc, mem_hset_key hp hc]
      rfl
    · rw [if_neg hc]
      rfl
  rw [List.map_congr_left this, List.map_id]

theorem find?_map_hset : ∀ {h : Hash} {f : String} (v : Stored),
    h.any (fun p => p.1 = f) = true →
    (h.map (fun p => if p.1 = f then (f, v) else p)).find? (fun p => p.1 = f)
      = some (f, v) := by
  intro h
  induction h with
  | nil =>
    intro f v hany
    simp at hany
  | cons q t ih =>
    intro f v hany
    by_cases hc : q.1 = f
    · simp [hc]
    · have hat : t.any (fun p => decide (p.1 = f)) = true := by
        rcases List.any_eq_true.mp hany with ⟨x, hx, hxf⟩
        rcases List.mem_cons.mp hx with rfl | hxt
        · simp only [decide_eq_true_eq] at hxf
          exact absurd hxf hc
        · exact List.any_eq_true.mpr ⟨x, hxt, hxf⟩
      simp only [List.map_cons, if_neg hc]
      rw [List.find?_cons_of_neg _ (by simp [hc])]
      exact ih v hat

theorem hget_hset_self (h : Hash) (f : String) (v : Stored) :
    hget (hset h f v) f = some v := by
  by_cases hp : h.any (fun p => p.1 = f)
  · unfold hget hset
    rw [if_pos hp, find?_map_hset v hp]
    rfl
  · unfold hget hset
    rw [if_neg hp, List.find?_append]
    have hnone : h.find? (fun p => decide (p.1 = f)) = none := by
      rw [List.find?_eq_none]
      intro x hx
      simp only [decide_eq_true_eq]
      intro hxf
      exact hp (List.any_eq_true.mpr ⟨x, hx, by simp [hxf]⟩)
    rw [hnone]
    simp

theorem applyReaction_idem (r : LinkRecord) (uid : Nat) (uname : Option String)
    (kind : String) :
    applyReaction (applyReaction r uid uname kind) uid uname kind =
      applyReaction r uid uname kind := by
  by_cases h1 : kind = "like"
  · subst h1
    simp [applyReaction, dictInsert_idem]
  · by_cases h2 : kind = "thumbs_up"
    · subst h2
      have hne : ¬ ("thumbs_up" : String) = "like" := by decide
      simp [applyReaction, hne, dictInsert_idem]
    · simp [applyReaction, h1, h2]

/-- C7: reactions are idempotent per user — repeating the same user's
reaction with the same kind on the same link returns the same result and
leaves the store exactly as after the first application (the repeat vote
overwrites, it does not accumulate); at the dictionary level, inserting a
(user, name) vote into a duplicate-free reaction dictionary keeps it
duplicate-free and leaves exactly one entry for that user, and in
particular a `like` on a record with duplicate-free `likes` leaves exactly
one `likes` entry for the voting user. -/
theorem reactions_idempotent_per_user :
    (∀ (rs rs1 : RState) (b : Bool) (url : String) (uid : Nat)
        (uname : Option String) (kind : String),
        add_reaction rs url uid uname kind = .ok (b, rs1) →
        add_reaction rs1 url uid uname kind = .ok (b, rs1)) ∧
    (∀ (d : RDict) (k : Nat) (v : Option String), (d.map Prod.fst).Nodup →
        ((dictInsert d k v).map Prod.fst).Nodup ∧
        (dictInsert d k v).filter (fun p => p.1 = k) = [(k, v)]) ∧
    (∀ (r : LinkRecord) (uid : Nat) (uname : Option String),
        (r.likes.map Prod.fst).Nodup →
        ((applyReaction r uid uname "like").likes).filter (fun p => p.1 = uid)
          = [(uid, uname)]) := by
  refine ⟨?_, ?_, ?_⟩
  · intro rs rs1 b url uid uname kind h1
    cases rs with
    | none =>
      have h0 : (Except.ok (false, (none : RState)) : Except Unit (Bool × RState))
          = .ok (b, rs1) := h1
      injection h0 with h0
      injection h0 with hb hrs
      subst hb
      subst hrs
      rfl
    | some st =>
      cases hh : hget st.links url with
      | none =>
        have hg : get_link_data (some st) url = .ok none := by
          simp [get_link_data, hh]
        rw [add_reaction_get_none uid uname kind hg] at h1
        injection h1 with h1
        injection h1 with hb hrs
        subst hb
        subst hrs
        exact add_reaction_get_none uid uname kind hg
      | some s =>
        cases s with
        | malformed =>
          have hg : get_link_data (some st) url = .error () := by
            simp [get_link_data, hh]
          rw [add_reaction_get_err uid uname kind hg] at h1
          exact Except.noConfusion h1
        | ok r =>
          have hg : get_link_data (some st) url = .ok (some r) := by
            simp [get_link_data, hh]
          rw [add_reaction_get_some uid uname kind hg] at h1
          injection h1 with h1
          injection h1 with hb hrs
          subst hb
          subst hrs
          have hg2 : get_link_data
              (some { st with
                links := hset st.links url (.ok (applyReaction r uid uname kind)) })
              url = .ok (some (applyReaction r uid uname kind)) := by
            simp [get_link_data, hget_hset_self]
          rw [add_reaction_get_some uid uname kind hg2, applyReaction_idem,
            hset_hset_same]
  · intro d k v hn
    exact ⟨dictInsert_keys_nodup k v hn, filter_dictInsert_self k v hn⟩
  · intro r uid uname hn
    have hlike : (applyReaction r uid uname "like").likes = dictInsert r.likes uid uname := rfl
    rw [hlike]
    exact filter_dictInsert_self uid uname hn

/-- C7 witness: user 7 likes a stored link twice; the second call returns
exactly the first call's result and state. -/
theorem reactions_idempotent_per_user_witness :
    add_reaction
        (some ⟨[("https://a.com/x", .ok ⟨1, 1000, [(7, some "bob")], []⟩)], 0⟩)
        "https://a.com/x" 7 (some "bob") "like" =
      .ok (true, some ⟨[("https://a.com/x", .ok ⟨1, 1000, [(7, some "bob")], []⟩)], 0⟩) :=
  reactions_idempotent_per_user.1
    (some ⟨[("https://a.com/x", .ok ⟨1, 1000, [], []⟩)], 0⟩)
    (some ⟨[("https://a.com/x", .ok ⟨1, 1000, [(7, some "bob")], []⟩)], 0⟩)
    true "https://a.com/x" 7 (some "bob") "like" rfl

/-! ## Degraded mode and failure handling -/

theorem foldAddReactions_none_false :
    ∀ (links : List String) (uid : Nat) (uname : Option String) (rtype : String),
      foldAddReactions none links uid uname rtype = .ok (false, none) := by
  intro links
  induction links with
  | nil => intro uid uname rtype; rfl
  | cons l ls ih =>
    intro uid uname rtype
    cases ls with
    | nil => rfl
    | cons l2 ls2 => exact ih uid uname rtype

/-- C8: with no backing store configured the system degrades to stateless
pass-through — the duplicate lookup always reports absence, processing any
message (in particular a repost of an already-posted URL) never deletes it
and leaves the (absent) store as it is, and the status command answers with
the degraded-mode notice instead of a link count. -/
theorem degraded_mode_spec :
    (∀ url : String, get_link_data none url = .ok none) ∧
    (∀ (chat_id now : Int) (delRes : DeleteResult) (m : Message),
        ∃ acts, check_duplicate_links chat_id now delRes none m = .ok (none, acts) ∧
          ∀ k : Nat, Action.deleteMessage k ∉ acts) ∧
    cmd_status none =
      "ℹ️ Используется временное хранилище в памяти. Данные будут потеряны при перезапуска бота." ∧
    (∀ st : ChatState, cmd_status (some st) ≠ cmd_status none) := by
  refine ⟨fun url => rfl, ?_, rfl, ?_⟩
  · intro chat_id now delRes m
    by_cases hskip : (m.sender_chat || m.from_is_self) = true
    · exact ⟨[], by rw [check_skip hskip], by intro k; exact List.not_mem_nil _⟩
    · rw [Bool.or_eq_true] at hskip
      push_neg at hskip
      have hns : m.sender_chat = false := by
        cases hb : m.sender_chat
        · rfl
        · exact absurd hb hskip.1
      have hnb : m.from_is_self = false := by
        cases hb : m.from_is_self
        · rfl
        · exact absurd hb hskip.2
      by_cases hl : (extract_links m.core).isEmpty
      · cases hr : m.reply_to with
        | none =>
          exact ⟨[], by rw [check_nolinks_noreply hns hnb hl hr],
            by intro k; exact List.not_mem_nil _⟩
        | some rm =>
          by_cases hrl : (extract_links rm).isEmpty
          · exact ⟨[], by rw [check_nolinks_emptyreply hns hnb hl hr hrl],
              by intro k; exact List.not_mem_nil _⟩
          · rw [Bool.not_eq_true] at hrl
            cases hd : detectReaction (pyLower (m.core.text.getD "")) with
            | none =>
              exact ⟨[], by rw [check_nolinks_nodetect hns hnb hl hr hrl hd],
                by intro k; exact List.not_mem_nil _⟩
            | some rtype =>
              have hfold := foldAddReactions_none_false (extract_links rm)
                m.from_user_id m.from_username rtype
              refine ⟨[], ?_, by intro k; exact List.not_mem_nil _⟩
              rw [check_reaction hns hnb hl hr hrl hd hfold]
              rfl
      · rw [Bool.not_eq_true] at hl
        have hfind := findDup_none (extract_links m.core)
        have hsave := saveAll_none (extract_links m.core) m.core.message_id now
        refine ⟨buttonActions m, ?_, ?_⟩
        · simp [check_duplicate_links, hns, hnb, hl, hfind, hsave, except_bind_ok,
            increment_cleanup_counter, buttonActions]
        · intro k
          unfold buttonActions
          split
          · exact List.not_mem_nil _
          · intro hmem
            rcases List.mem_singleton.mp hmem with h
            exact Action.noConfusion h
  · intro st heq
    have h1 : (cmd_status (some st)).toList.head? = some '📊' := rfl
    rw [heq] at h1
    have h2 : (cmd_status none).toList.head? = some 'ℹ' := rfl
    rw [h2] at h1
    have := Option.some.inj h1
    exact (by decide : ('ℹ' : Char) ≠ '📊') this

/-- C8 witness: a message reposting a URL in degraded mode ends with no
deletion. -/
theorem degraded_mode_spec_witness :
    ∃ acts,
      check_duplicate_links (-100123) 2000 .ok none
        ⟨⟨some "https://a.com/x", none, [], [], 2⟩, none, false, false, 11, some "v", false⟩ =
        .ok (none, acts) ∧
      ∀ k : Nat, Action.deleteMessage k ∉ acts :=
  degraded_mode_spec.2.1 (-100123) 2000 .ok
    ⟨⟨some "https://a.com/x", none, [], [], 2⟩, none, false, false, 11, some "v", false⟩

/-- C9: duplicate found but the transport refuses the deletion
(`TelegramForbiddenError`): the handler aborts this message's duplicate
path — the admin-facing missing-rights warning is its only action, so the
duplicate message is not deleted and no warning-with-origin-link is sent;
the store is untouched and the handler returns normally (no retry, no
crash). -/
theorem permission_failure_aborts
    (chat_id now : Int) (rs : RState) (m : Message) (dr : String × LinkRecord)
    (hns : m.sender_chat = false) (hnb : m.from_is_self = false)
    (hl : (extract_links m.core).isEmpty = false)
    (hfind : findDup rs (extract_links m.core) = .ok (some dr)) :
    check_duplicate_links chat_id now .forbidden rs m = .ok (rs, [.replyAdminWarn]) ∧
    (∀ k : Nat, Action.deleteMessage k ∉ ([.replyAdminWarn] : List Action)) ∧
    (∀ t : String, Action.sendWarning t ∉ ([.replyAdminWarn] : List Action)) := by
  refine ⟨check_dup hns hnb hl hfind chat_id now .forbidden, ?_, ?_⟩
  · intro k
    simp
  · intro t
    simp

/-- C9 witness: the repost of a stored URL with deletion forbidden yields
exactly the admin warning and an unchanged store. -/
theorem permission_failure_aborts_witness :
    check_duplicate_links (-100123) 2000 .forbidden
      (some ⟨[("https://a.com/x", .ok ⟨1, 1000, [], []⟩)], 1⟩)
      ⟨⟨some "https://a.com/x?utm=1", none, [], [], 2⟩, none, false, false, 11, some "v", false⟩ =
    .ok (some ⟨[("https://a.com/x", .ok ⟨1, 1000, [], []⟩)], 1⟩, [.replyAdminWarn]) :=
  (permission_failure_aborts (-100123) 2000
    (some ⟨[("https://a.com/x", .ok ⟨1, 1000, [], []⟩)], 1⟩)
    ⟨⟨some "https://a.com/x?utm=1", none, [], [], 2⟩, none, false, false, 11, some "v", false⟩
    ("https://a.com/x", ⟨1, 1000, [], []⟩) rfl rfl (by decide) rfl).1

theorem handle_reaction_callback_always_error (rs : RState) (chat_id : Int)
    (data : String) (cb : Nat) (uid : Nat) (uname : Option String) :
    handle_reaction_callback rs chat_id data cb uid uname =
      (rs, "❌ Произошла ошибка", []) := by
  unfold handle_reaction_callback
  cases h1 : (pySplit data '_').get? 1 with
  | none => rfl
  | some rtype =>
    cases h2 : (pySplit data '_').get? 2 with
    | none => rfl
    | some midStr =>
      dsimp only
      cases h3 : parseNat midStr with
      | none => rfl
      | some mid => rfl

/-- C10 counterexample: the thumbs-up button never delivers a success
confirmation — `bot.get_message` does not exist on aiogram's `Bot`, so the
callback handler raises `AttributeError` into its blanket `except` before
`add_reaction` is ever reached: at the concrete thumbs callback on a chat
with a stored link the answer is the error text (which differs from the
success text), no reaction is recorded and no action is performed. -/
theorem thumbs_callback_no_success_cex :
    handle_reaction_callback
        (some ⟨[("https://a.com/x", .ok ⟨1, 1000, [], []⟩)], 0⟩)
        (-100123) "reaction_thumbs_1" 5 77 (some "bob") =
      (some ⟨[("https://a.com/x", .ok ⟨1, 1000, [], []⟩)], 0⟩,
       "❌ Произошла ошибка", []) ∧
    ("❌ Произошла ошибка" : String) ≠ "👍 Ваша реакция учтена!" :=
  ⟨rfl, by decide⟩

/-- C10 (amended): `add_reaction` on an existing record with any kind other
than `"like"`/`"thumbs_up"` still returns `True` and re-persists the record
with both reaction sets unchanged, and the callback handler does parse the
reaction type out of `reaction_thumbs_<id>` as `"thumbs"` — not
`"thumbs_up"` — so a reaction reaching `add_reaction` with that kind would
be dropped; but the handler never gets that far: `aiogram.Bot` has no
`get_message` method, so every callback raises `AttributeError` into the
blanket `except`, the user receives the error answer rather than a success
confirmation, and the store is left unchanged. -/
theorem thumbs_button_records_nothing :
    (∀ (st : ChatState) (url : String) (uid : Nat) (uname : Option String)
        (kind : String) (r : LinkRecord),
        kind ≠ "like" → kind ≠ "thumbs_up" →
        get_link_data (some st) url = .ok (some r) →
        add_reaction (some st) url uid uname kind =
          .ok (true, some { st with links := hset st.links url (.ok r) })) ∧
    ((pySplit "reaction_thumbs_42" '_').get? 1 = some "thumbs") ∧
    (∀ (rs : RState) (chat_id : Int) (data : String) (cb uid : Nat)
        (uname : Option String),
        handle_reaction_callback rs chat_id data cb uid uname =
          (rs, "❌ Произошла ошибка", [])) := by
  refine ⟨?_, rfl, handle_reaction_callback_always_error⟩
  intro st url uid uname kind r h1 h2 hg
  rw [add_reaction_get_some uid uname kind hg]
  rw [show applyReaction r uid uname kind = r from by simp [applyReaction, h1, h2]]

/-- C10 witness: an unknown-kind reaction on a stored link reports success
and leaves the stored record's reaction sets unchanged, and the concrete
thumbs callback answers the error text with the store untouched. -/
theorem thumbs_button_records_nothing_witness :
    add_reaction (some ⟨[("https://a.com/x", .ok ⟨1, 1000, [], []⟩)], 0⟩)
        "https://a.com/x" 8 (some "eve") "thumbs" =
      .ok (true, some ⟨[("https://a.com/x", .ok ⟨1, 1000, [], []⟩)], 0⟩) ∧
    handle_reaction_callback
        (some ⟨[("https://a.com/x", .ok ⟨1, 1000, [], []⟩)], 0⟩)
        (-100123) "reaction_like_1" 5 8 (some "eve") =
      (some ⟨[("https://a.com/x", .ok ⟨1, 1000, [], []⟩)], 0⟩,
       "❌ Произошла ошибка", []) :=
  ⟨thumbs_button_records_nothing.1
    ⟨[("https://a.com/x", .ok ⟨1, 1000, [], []⟩)], 0⟩
    "https://a.com/x" 8 (some "eve") "thumbs" ⟨1, 1000, [], []⟩
    (by decide) (by decide) rfl,
   thumbs_button_records_nothing.2.2
    (some ⟨[("https://a.com/x", .ok ⟨1, 1000, [], []⟩)], 0⟩)
    (-100123) "reaction_like_1" 5 8 (some "eve")⟩

end AntiDup
